import Mathlib

/-!
Verification of the COBOL punch-card generator (`src/main.rs`).

The Rust program turns COBOL source lines into 80-column punch-card records,
maps each character to Hollerith punch rows, lays the punches out on a card
template image, and assembles a paginated PDF (3 cards per page).

Shallow embedding notes:
* Rust `String`s are modelled as `List Char`; the program only ever inspects
  characters, and for the ASCII data the program deals in, byte length and
  char length coincide.
* Rust `char::is_whitespace` is modelled by `Char.isWhitespace` (space, tab,
  CR, LF) and `char::to_uppercase().next().unwrap()` by `Char.toUpper`
  (ASCII uppercasing); they agree on all ASCII characters, which is all the
  encoding table and the formatting logic distinguish.
* `format!("{:06}", n)` / `format!("{:08}", n)` are modelled by `zeroPad`
  over a decimal rendering `natToChars`; `format!("{:<65}", s)` /
  `format!("{:<80}", s)` by `padRight` (left-justify, pad with spaces,
  never truncate — exactly Rust's behaviour).
* The `f32` geometry of `generate_punch_card_pdf` is modelled over `ℚ`
  with the exact decimal constants of the source; the statements proved
  about it compare two syntactically parallel arithmetic expressions, so
  they hold for any arithmetic interpretation of the operations.
* `HashMap` lookup is modelled by `List.find?` over the insertion list
  (all inserted keys are distinct, so first-match equals map lookup).
-/

/-- Number of columns on a punch card (`COLUMNS` in the source). -/
def COLUMNS : Nat := 80

/-- Number of punch rows on a punch card (`ROWS` in the source). -/
def ROWS : Nat := 12

/-- Cards placed on one PDF page (`CARDS_PER_PAGE` in the source). -/
def CARDS_PER_PAGE : Nat := 3

/-- The insertion list of `get_hollerith_encoding` (`src/main.rs:32-74`):
letters A-I as 12-punch plus digit rows, J-R as 11-punch, S-Z as 0-punch,
digits, and the special-character table, in source order. -/
def hollerith_entries : List (Char × List Nat) :=
  ((List.range 9).map (fun i => (Char.ofNat ('A'.toNat + i), [0, i + 3])))
  ++ ((List.range 9).map (fun i => (Char.ofNat ('J'.toNat + i), [1, i + 3])))
  ++ ((List.range 8).map (fun i => (Char.ofNat ('S'.toNat + i), [2, i + 4])))
  ++ ((List.range 10).map (fun i => (Char.ofNat ('0'.toNat + i), [i + 2])))
  ++ [(' ', []), ('.', [0, 1, 10]), (',', [0, 5]), ('(', [0, 7]), (')', [1, 7]),
      ('+', [0, 8]), ('-', [1]), ('*', [1, 6]), ('/', [2, 3]), ('=', [0, 8]),
      ('$', [1, 5]), (Char.ofNat 39, [0, 10]), (':', [4, 10]), (';', [0, 1, 8]),
      (Char.ofNat 34, [0, 10])]

/-- Lookup in the Hollerith map built by `get_hollerith_encoding`.  All keys
in `hollerith_entries` are distinct, so first-match lookup coincides with
the `HashMap` (last-insert-wins) semantics of the source. -/
def get_hollerith_encoding (c : Char) : Option (List Nat) :=
  (hollerith_entries.find? (fun e => e.1 == c)).map Prod.snd

/-- The per-character punch resolution of `PunchCard::from_cobol_line`
(`src/main.rs:125-134`): uppercase the character, look it up, and fall back
to the empty punch list for unknown characters. -/
def resolve_punch (c : Char) : List Nat :=
  (get_hollerith_encoding c.toUpper).getD []

/-- Decimal digit characters. -/
def decimalChars : List Char :=
  ['0', '1', '2', '3', '4', '5', '6', '7', '8', '9']

/-- Fuel-driven decimal rendering: most significant digit first.  The fuel
only bounds the recursion; `n` itself is always enough fuel. -/
def toDecimalAux : Nat → Nat → List Char
  | 0, _ => []
  | fuel + 1, n => if n = 0 then [] else toDecimalAux fuel (n / 10) ++ [Nat.digitChar (n % 10)]

/-- Decimal rendering of a natural number, as Rust's `format!` produces it. -/
def natToChars (n : Nat) : List Char :=
  if n = 0 then ['0'] else toDecimalAux n n

/-- Zero padding on the left to width `w` (Rust `format!` with `{:0w}`):
pads when the rendering is short, never truncates. -/
def zeroPad (w : Nat) (l : List Char) : List Char :=
  List.replicate (w - l.length) '0' ++ l

/-- Space padding on the right to width `w` (Rust `format!` with `{:<w}`):
pads when the list is short, never truncates. -/
def padRight (w : Nat) (l : List Char) : List Char :=
  l ++ List.replicate (w - l.length) ' '

/-- Rust `str::trim_end`: drop trailing whitespace. -/
def rustTrimEnd (l : List Char) : List Char :=
  (l.reverse.dropWhile Char.isWhitespace).reverse

/-- Rust `str::trim`: drop leading and trailing whitespace. -/
def rustTrim (l : List Char) : List Char :=
  rustTrimEnd (l.dropWhile Char.isWhitespace)

/-- The six-column sequence field of `from_cobol_line`
(`format!("{:06}", sequence_num % 1000000)`, `src/main.rs:96`). -/
def seq6str (n : Nat) : List Char := zeroPad 6 (natToChars (n % 1000000))

/-- The eight-column card-sequence field of `from_cobol_line`
(`format!("{:08}", sequence_num)`, `src/main.rs:97`). -/
def seq8str (n : Nat) : List Char := zeroPad 8 (natToChars n)

/-- Indicator/body extraction of `from_cobol_line` (`src/main.rs:99-112`):
a line starting with seven spaces and longer than 7 characters is treated as
pre-formatted (indicator at index 6, body = rest right-trimmed); any other
line is trimmed whole and gets a space indicator. -/
def extract_parts (line : List Char) : Char × List Char :=
  if line.take 7 = List.replicate 7 ' ' ∧ 7 < line.length then
    ((line.get? 6).getD ' ', rustTrimEnd (line.drop 7))
  else
    (' ', rustTrim line)

/-- The 80-column record built by `from_cobol_line` (`src/main.rs:114-122`):
sequence field, indicator, body left-justified into 65 columns, card
sequence field; then the concatenation is cut to 80 characters and space
padded (`format!("{:<80}", formatted.chars().take(80)...)`). -/
def format_record (line : List Char) (n : Nat) : List Char :=
  let p := extract_parts line
  let formatted := seq6str n ++ [p.1] ++ padRight 65 p.2 ++ seq8str n
  padRight 80 (formatted.take 80)

/-- The punch card produced by `PunchCard::from_cobol_line`
(`src/main.rs:87-137`): 80 columns, each the resolved punch list of the
corresponding record character (columns beyond the record stay empty, as in
the `PunchCard::new` initialisation). -/
def from_cobol_line (line : List Char) (n : Nat) : List (List Nat) :=
  (List.range COLUMNS).map fun i =>
    match (format_record line n).get? i with
    | some ch => resolve_punch ch
    | none => []

/-- The card list built in `generate_punch_card_pdf` (`src/main.rs:362-366`):
line `i` (0-based) becomes a card with sequence number `i + 1`. -/
def make_cards (lines : List (List Char)) : List (List (List Nat)) :=
  lines.enum.map fun p => from_cobol_line p.2 (p.1 + 1)

/-- Rust slice `chunks(3)` (the source calls `cards.chunks(CARDS_PER_PAGE)`
with `CARDS_PER_PAGE = 3`, `src/main.rs:395`): groups of three in order,
the last group possibly shorter. -/
def chunks3 {α : Type} : List α → List (List α)
  | [] => []
  | [a] => [[a]]
  | [a, b] => [[a, b]]
  | a :: b :: c :: rest => [a, b, c] :: chunks3 rest

/-- The page partition of `generate_punch_card_pdf` (`src/main.rs:395`). -/
def pages_of (lines : List (List Char)) : List (List (List (List Nat))) :=
  chunks3 (make_cards lines)

/-- The error message of `validate_and_format_cobol` (`src/main.rs:149-154`):
line number, length, and a preview of at most 40 characters. -/
def lineErrorMsg (lineNum : Nat) (trimmed : List Char) : List Char :=
  "Line ".toList ++ natToChars lineNum ++ " exceeds 80 columns (".toList
  ++ natToChars trimmed.length ++ " chars): ".toList
  ++ trimmed.take (min 40 trimmed.length)

/-- The loop body of `validate_and_format_cobol` (`src/main.rs:140-183`),
with `i` the 0-based index of the first line of the remaining list.  Every
non-error branch of the source pushes the right-trimmed line (the blank-line
branch pushes a fresh empty string, equal to the trimmed empty line; the
comment and already-formatted branches push `trimmed` unchanged). -/
def validateAux (i : Nat) : List (List Char) → Except (List Char) (List (List Char))
  | [] => .ok []
  | line :: rest =>
    if 80 < (rustTrimEnd line).length then
      .error (lineErrorMsg (i + 1) (rustTrimEnd line))
    else
      match validateAux (i + 1) rest with
      | .error e => .error e
      | .ok fs => .ok (rustTrimEnd line :: fs)

/-- `validate_and_format_cobol` (`src/main.rs:140-183`). -/
def validate_and_format_cobol (lines : List (List Char)) :
    Except (List Char) (List (List Char)) :=
  validateAux 0 lines

/-- The `main` pipeline order (`src/main.rs:619-639`, JCL disabled):
validation runs first and its error aborts the run before any card or page
is constructed and before anything is written. -/
def run_pipeline (lines : List (List Char)) :
    Except (List Char) (List (List (List (List Nat)))) :=
  match validate_and_format_cobol lines with
  | .error e => .error e
  | .ok fs => .ok (pages_of fs)

/-- Card width in mm (`CARD_WIDTH_MM = 187.325`). -/
def CARD_WIDTH_MM : ℚ := 187325 / 1000

/-- Card height in mm (`CARD_HEIGHT_MM = 82.55`). -/
def CARD_HEIGHT_MM : ℚ := 8255 / 100

/-- Page width in mm (`A4_WIDTH_MM = 210.0`). -/
def A4_WIDTH_MM : ℚ := 210

/-- Page height in mm (`A4_HEIGHT_MM = 297.0`). -/
def A4_HEIGHT_MM : ℚ := 297

/-- Points per millimetre (`PT_PER_MM = 2.834645`). -/
def PT_PER_MM : ℚ := 2834645 / 1000000

/-- Template pixel x of column 0 (`FIRST_PUNCH_X = 30.0`). -/
def FIRST_PUNCH_X : ℚ := 30

/-- Template pixel y of row 0 (`FIRST_PUNCH_Y = 25.0`). -/
def FIRST_PUNCH_Y : ℚ := 25

/-- Template pixels between columns (`COLUMN_SPACING = 9.0`). -/
def COLUMN_SPACING : ℚ := 9

/-- Template pixels between rows (`ROW_SPACING = 27.0`). -/
def ROW_SPACING : ℚ := 27

/-- Punch width in template pixels (`PUNCH_WIDTH_PX = 7.0`). -/
def PUNCH_WIDTH_PX : ℚ := 7

/-- Punch height in template pixels (`PUNCH_HEIGHT_PX = 15.0`). -/
def PUNCH_HEIGHT_PX : ℚ := 15

/-- Page height in points (`src/main.rs:375`). -/
def page_height : ℚ := A4_HEIGHT_MM * PT_PER_MM

/-- Card width in points (`src/main.rs:376`). -/
def card_width_pt : ℚ := CARD_WIDTH_MM * PT_PER_MM

/-- Card height in points (`src/main.rs:377`). -/
def card_height_pt : ℚ := CARD_HEIGHT_MM * PT_PER_MM

/-- Horizontal margin centring the card (`src/main.rs:378`). -/
def margin_left : ℚ := ((A4_WIDTH_MM - CARD_WIDTH_MM) / 2) * PT_PER_MM

/-- Vertical gap between cards (`src/main.rs:379`). -/
def spacing : ℚ :=
  ((A4_HEIGHT_MM - CARD_HEIGHT_MM * (CARDS_PER_PAGE : ℚ)) / ((CARDS_PER_PAGE : ℚ) + 1)) * PT_PER_MM

/-- Bottom-left y of the card at page slot `k` (`src/main.rs:401`). -/
def y_pos (k : Nat) : ℚ :=
  page_height - spacing - (((k : ℚ) + 1) * card_height_pt) - ((k : ℚ) * spacing)

/-- The punch rectangle emitted for page slot `k`, column `c`, row `r`
(`src/main.rs:421-456`), as (x, y, width, height), for a template image of
`imgW × imgH` pixels.  Transcribed operation for operation from the source:
pixel position from the template constants, scale to card points, flip the
downward pixel y axis into the upward page y axis. -/
def punch_rect (imgW imgH : ℚ) (k c r : Nat) : ℚ × ℚ × ℚ × ℚ :=
  let scale_x := card_width_pt / imgW
  let scale_y := card_height_pt / imgH
  let punch_width_pt := PUNCH_WIDTH_PX * scale_x
  let punch_height_pt := PUNCH_HEIGHT_PX * scale_y
  let punch_x_px := FIRST_PUNCH_X + ((c : ℚ) * COLUMN_SPACING)
  let punch_y_px := FIRST_PUNCH_Y + ((r : ℚ) * ROW_SPACING)
  let x := margin_left + (punch_x_px * scale_x)
  let punch_y := y_pos k + ((imgH - punch_y_px) * scale_y) - punch_height_pt
  (x, punch_y, punch_width_pt, punch_height_pt)

/-- Modelled from the spec's words (claim C8): the punch rectangle formula
as the specification states it, with `scaleX = cardWidthPt/imageWidth`,
`scaleY = cardHeightPt/imageHeight`, and
`cardBottomY = pageHeight - spacing - (k+1)*cardHeightPt - k*spacing`. -/
def punch_rect_spec (imgW imgH : ℚ) (k c r : Nat) : ℚ × ℚ × ℚ × ℚ :=
  let scaleX := card_width_pt / imgW
  let scaleY := card_height_pt / imgH
  let cardBottomY := page_height - spacing - (((k : ℚ) + 1) * card_height_pt) - ((k : ℚ) * spacing)
  (margin_left + (30 + 9 * (c : ℚ)) * scaleX,
   cardBottomY + (imgH - (25 + 27 * (r : ℚ))) * scaleY - 15 * scaleY,
   7 * scaleX,
   15 * scaleY)

/-! ## Helper lemmas: decimal rendering, padding, trimming -/

theorem toDecimalAux_length_le :
    ∀ (fuel n k : Nat), n ≤ fuel → n < 10 ^ k → (toDecimalAux fuel n).length ≤ k := by
  intro fuel
  induction fuel with
  | zero =>
    intro n k hf _
    have : n = 0 := Nat.le_zero.mp hf
    simp [toDecimalAux, this]
  | succ fuel ih =>
    intro n k hf hk
    by_cases h0 : n = 0
    · simp [toDecimalAux, h0]
    · simp only [toDecimalAux, if_neg h0, List.length_append, List.length_cons,
        List.length_nil]
      cases k with
      | zero =>
        have hpos := Nat.pos_of_ne_zero h0
        simp at hk
        omega
      | succ k' =>
        have h10 : n / 10 < 10 ^ k' := by
          rw [Nat.div_lt_iff_lt_mul (by norm_num : (0:Nat) < 10)]
          calc n < 10 ^ (k' + 1) := hk
            _ = 10 ^ k' * 10 := by rw [pow_succ]
        have hf' : n / 10 ≤ fuel := by
          have := Nat.div_lt_self (Nat.pos_of_ne_zero h0) (by norm_num : (1:Nat) < 10)
          omega
        have := ih (n / 10) k' hf' h10
        omega

theorem natToChars_length_le {n k : Nat} (hk : 1 ≤ k) (h : n < 10 ^ k) :
    (natToChars n).length ≤ k := by
  unfold natToChars
  split
  · simpa using hk
  · exact toDecimalAux_length_le n n k le_rfl h

theorem toDecimalAux_mem :
    ∀ (fuel n : Nat) (c : Char), c ∈ toDecimalAux fuel n → c ∈ decimalChars := by
  intro fuel
  induction fuel with
  | zero => intro n c h; simp [toDecimalAux] at h
  | succ fuel ih =>
    intro n c h
    by_cases h0 : n = 0
    · simp [toDecimalAux, h0] at h
    · simp only [toDecimalAux, if_neg h0, List.mem_append, List.mem_singleton] at h
      rcases h with h | rfl
      · exact ih _ _ h
      · have hlt : n % 10 < 10 := Nat.mod_lt _ (by norm_num)
        have : ∀ m, m < 10 → Nat.digitChar m ∈ decimalChars := by decide
        exact this _ hlt

theorem natToChars_mem {n : Nat} {c : Char} (h : c ∈ natToChars n) : c ∈ decimalChars := by
  unfold natToChars at h
  split at h
  · simp only [List.mem_singleton] at h
    simp [h, decimalChars]
  · exact toDecimalAux_mem _ _ _ h

theorem decimal_not_ws {c : Char} (h : c ∈ decimalChars) : c.isWhitespace = false := by
  fin_cases h <;> rfl

theorem decimal_ne_space {c : Char} (h : c ∈ decimalChars) : ¬ c = ' ' := by
  fin_cases h <;> decide

theorem zeroPad_mem {w : Nat} {l : List Char} {c : Char} (h : c ∈ zeroPad w l) :
    c = '0' ∨ c ∈ l := by
  simp only [zeroPad, List.mem_append, List.mem_replicate] at h
  tauto

theorem zeroPad_length_of_le {w : Nat} {l : List Char} (h : l.length ≤ w) :
    (zeroPad w l).length = w := by
  simp [zeroPad]; omega

theorem zeroPad_length_ge (w : Nat) (l : List Char) : w ≤ (zeroPad w l).length := by
  simp [zeroPad]; omega

theorem padRight_length_of_le {w : Nat} {l : List Char} (h : l.length ≤ w) :
    (padRight w l).length = w := by
  simp [padRight]; omega

theorem padRight_eq_self {w : Nat} {l : List Char} (h : w ≤ l.length) :
    padRight w l = l := by
  simp [padRight, Nat.sub_eq_zero_of_le h]

theorem seq6str_length (n : Nat) : (seq6str n).length = 6 := by
  refine zeroPad_length_of_le (natToChars_length_le (by norm_num) ?_)
  have : n % 1000000 < 1000000 := Nat.mod_lt _ (by norm_num)
  simpa using this

theorem seq6str_mem {n : Nat} {c : Char} (h : c ∈ seq6str n) : c ∈ decimalChars := by
  rcases zeroPad_mem h with rfl | h
  · simp [decimalChars]
  · exact natToChars_mem h

theorem seq8str_length_ge (n : Nat) : 8 ≤ (seq8str n).length := zeroPad_length_ge 8 _

theorem seq8str_length_of_le {n : Nat} (h : n ≤ 99999999) : (seq8str n).length = 8 := by
  refine zeroPad_length_of_le (natToChars_length_le (by norm_num) ?_)
  norm_num
  omega

theorem seq8str_mem {n : Nat} {c : Char} (h : c ∈ seq8str n) : c ∈ decimalChars := by
  rcases zeroPad_mem h with rfl | h
  · simp [decimalChars]
  · exact natToChars_mem h

theorem dropWhile_cons_of_neg {p : Char → Bool} {c : Char} {t : List Char}
    (h : p c = false) : (c :: t).dropWhile p = c :: t := by
  simp [List.dropWhile_cons, h]

theorem rustTrimEnd_eq_self {l : List Char} {c : Char} {t : List Char}
    (h : l.reverse = c :: t) (hc : c.isWhitespace = false) : rustTrimEnd l = l := by
  unfold rustTrimEnd
  rw [h, dropWhile_cons_of_neg hc, ← h, List.reverse_reverse]

theorem rustTrim_eq_self {l : List Char} {c d : Char} {t t' : List Char}
    (hh : l = c :: t) (hc : c.isWhitespace = false)
    (hr : l.reverse = d :: t') (hd : d.isWhitespace = false) : rustTrim l = l := by
  unfold rustTrim
  rw [hh, dropWhile_cons_of_neg hc, ← hh, rustTrimEnd_eq_self hr hd]

/-! ## Structural lemmas about `format_record` -/

theorem format_record_eq_of_le (line : List Char) (n : Nat)
    (h : (extract_parts line).2.length ≤ 65) :
    format_record line n =
      ((seq6str n ++ [(extract_parts line).1]) ++ padRight 65 (extract_parts line).2)
        ++ (seq8str n).take 8 := by
  have ha : (seq6str n).length = 6 := seq6str_length n
  have hpb : (padRight 65 (extract_parts line).2).length = 65 := padRight_length_of_le h
  have hs8 : 8 ≤ (seq8str n).length := seq8str_length_ge n
  have hP : ((seq6str n ++ [(extract_parts line).1])
      ++ padRight 65 (extract_parts line).2).length = 72 := by
    simp [ha, hpb]
  simp only [format_record]
  rw [List.take_append_eq_append_take, List.take_of_length_le (by omega), hP]
  have h8 : (80 : Nat) - 72 = 8 := by norm_num
  rw [h8]
  have hQ : (((seq6str n ++ [(extract_parts line).1]) ++ padRight 65 (extract_parts line).2)
      ++ (seq8str n).take 8).length = 80 := by
    simp [hP, List.length_take]
    omega
  exact padRight_eq_self (le_of_eq hQ.symm)

theorem format_record_eq_of_gt (line : List Char) (n : Nat)
    (h : 65 < (extract_parts line).2.length) :
    format_record line n =
      (seq6str n ++ [(extract_parts line).1])
        ++ ((extract_parts line).2 ++ seq8str n).take 73 := by
  have ha : (seq6str n).length = 6 := seq6str_length n
  have hs8 : 8 ≤ (seq8str n).length := seq8str_length_ge n
  have hA : (seq6str n ++ [(extract_parts line).1]).length = 7 := by simp [ha]
  simp only [format_record, padRight_eq_self (le_of_lt h)]
  rw [List.append_assoc (seq6str n ++ [(extract_parts line).1])]
  rw [List.take_append_eq_append_take, List.take_of_length_le (by omega), hA]
  have h73 : (80 : Nat) - 7 = 73 := by norm_num
  rw [h73]
  have hQ : ((seq6str n ++ [(extract_parts line).1])
      ++ ((extract_parts line).2 ++ seq8str n).take 73).length = 80 := by
    simp [hA, List.length_take]
    omega
  exact padRight_eq_self (le_of_eq hQ.symm)

theorem record_cols_of_gt (line : List Char) (n : Nat)
    (h : 65 < (extract_parts line).2.length) :
    ((format_record line n).drop 7).take 65 = (extract_parts line).2.take 65 := by
  have hA : (seq6str n ++ [(extract_parts line).1]).length = 7 := by simp [seq6str_length n]
  rw [format_record_eq_of_gt line n h]
  rw [List.drop_append_eq_append_drop, List.drop_eq_nil_of_le (by omega), hA]
  simp only [Nat.sub_self, List.drop_zero, List.nil_append]
  rw [List.take_take]
  have h65 : min 65 73 = 65 := by norm_num
  rw [h65, List.take_append_eq_append_take, Nat.sub_eq_zero_of_le (le_of_lt h)]
  simp

theorem format_record_length (line : List Char) (n : Nat) :
    (format_record line n).length = 80 := by
  by_cases h : (extract_parts line).2.length ≤ 65
  · rw [format_record_eq_of_le line n h]
    have hs8 : 8 ≤ (seq8str n).length := seq8str_length_ge n
    have hpb : (padRight 65 (extract_parts line).2).length = 65 := padRight_length_of_le h
    simp [seq6str_length n, hpb, List.length_take]
    omega
  · push_neg at h
    rw [format_record_eq_of_gt line n h]
    have hs8 : 8 ≤ (seq8str n).length := seq8str_length_ge n
    simp [seq6str_length n, List.length_take]
    omega

theorem extract_fst (line : List Char) : (extract_parts line).1 = ' ' := by
  unfold extract_parts
  split
  · next hcond =>
    have h6 : line.get? 6 = some ' ' := by
      conv_lhs => rw [← List.take_append_drop 7 line]
      rw [List.get?_append (by rw [hcond.1]; simp), hcond.1]
      rfl
    rw [h6]
    rfl
  · rfl

theorem record_extract (line : List Char) (n : Nat)
    (h : (extract_parts line).2.length ≤ 65) :
    extract_parts (format_record line n) = (' ', format_record line n) := by
  have hshape := format_record_eq_of_le line n h
  have ha : (seq6str n).length = 6 := seq6str_length n
  have hs8 : 8 ≤ (seq8str n).length := seq8str_length_ge n
  obtain ⟨c, a', hc⟩ : ∃ c a', seq6str n = c :: a' :=
    List.exists_cons_of_ne_nil (by intro hnil; rw [hnil] at ha; simp at ha)
  have hcdig : c ∈ decimalChars := seq6str_mem (by rw [hc]; exact List.mem_cons_self c a')
  have hRcons : format_record line n =
      c :: ((a' ++ [(extract_parts line).1] ++ padRight 65 (extract_parts line).2)
        ++ (seq8str n).take 8) := by
    rw [hshape, hc]
    simp only [List.cons_append]
  have ht8len : ((seq8str n).take 8).length = 8 := by
    simp [List.length_take]
    omega
  obtain ⟨d, t', hd⟩ : ∃ d t', ((seq8str n).take 8).reverse = d :: t' :=
    List.exists_cons_of_ne_nil (by
      intro hnil
      have := congrArg List.length hnil
      simp [ht8len] at this)
  have hddig : d ∈ decimalChars := by
    have hmem : d ∈ (seq8str n).take 8 :=
      List.mem_reverse.mp (by rw [hd]; exact List.mem_cons_self d t')
    exact seq8str_mem (List.mem_of_mem_take hmem)
  have hRrev : (format_record line n).reverse =
      d :: (t' ++ ((seq6str n ++ [(extract_parts line).1])
        ++ padRight 65 (extract_parts line).2).reverse) := by
    rw [hshape, List.reverse_append, hd]
    simp only [List.cons_append]
  unfold extract_parts
  rw [if_neg, rustTrim_eq_self hRcons (decimal_not_ws hcdig) hRrev (decimal_not_ws hddig)]
  rintro ⟨h7, -⟩
  rw [hRcons, List.take_succ_cons] at h7
  have : c = ' ' := by
    have := congrArg (fun l => l.head?) h7
    simpa using this
  exact decimal_ne_space hcdig this

/-- C1, counterexample to the claim as stated: the raw line of eighty `A`s
is at most 80 characters long and the sequence number 1 is in range, yet
columns 73-80 of the formatted Record are not the zero-padded sequence
number (they are overflowed body characters `AAAAAAAA`), because
`format!("{:<65}", ...)` pads but never truncates, and the final
`take(80)` cuts the trailing field off instead. -/
theorem c1_trailing_field_counterexample :
    (List.replicate 80 'A').length ≤ 80 ∧ 1 ≤ (1 : Nat) ∧ (1 : Nat) ≤ 99999999 ∧
    (format_record (List.replicate 80 'A') 1).drop 72 ≠ zeroPad 8 (natToChars 1) := by
  decide

/-- C1 (amended): for every raw input line of length at most 80 whose
extracted body is at most 65 characters, and every sequence number
`1 ≤ n ≤ 99999999`, the formatted Record has length exactly 80, its first
6 characters are `n % 1000000` zero-padded to 6 digits, and its last 8
characters are `n` (not modulo-reduced) zero-padded to 8 digits. -/
theorem c1_record_fields (line : List Char) (n : Nat)
    (hline : line.length ≤ 80) (hn1 : 1 ≤ n) (hn2 : n ≤ 99999999)
    (hbody : (extract_parts line).2.length ≤ 65) :
    (format_record line n).length = 80 ∧
    (format_record line n).take 6 = zeroPad 6 (natToChars (n % 1000000)) ∧
    (format_record line n).drop 72 = zeroPad 8 (natToChars n) := by
  have ha : (seq6str n).length = 6 := seq6str_length n
  have hpb : (padRight 65 (extract_parts line).2).length = 65 := padRight_length_of_le hbody
  have hs8 : (seq8str n).length = 8 := seq8str_length_of_le hn2
  refine ⟨format_record_length line n, ?_, ?_⟩
  · show (format_record line n).take 6 = seq6str n
    rw [format_record_eq_of_le line n hbody]
    rw [List.take_append_eq_append_take, List.take_append_eq_append_take,
      List.take_append_eq_append_take]
    have h1 : (seq6str n).take 6 = seq6str n := List.take_of_length_le (by omega)
    simp [h1, ha, hpb, List.length_append, List.length_take]
  · show (format_record line n).drop 72 = seq8str n
    rw [format_record_eq_of_le line n hbody]
    rw [List.drop_append_eq_append_drop, List.drop_append_eq_append_drop,
      List.drop_append_eq_append_drop]
    have h1 : (seq6str n).drop 72 = [] := List.drop_eq_nil_of_le (by omega)
    have h2 : (seq8str n).take 8 = seq8str n := List.take_of_length_le (by omega)
    have h3 : (padRight 65 (extract_parts line).2).drop 65 = [] :=
      List.drop_eq_nil_of_le (by omega)
    simp [h1, h2, h3, ha, hpb, List.length_append, List.drop_eq_nil_of_le]

theorem c1_record_fields_witness :
    (format_record "DISPLAY".toList 1).length = 80 ∧
    (format_record "DISPLAY".toList 1).take 6 = zeroPad 6 (natToChars (1 % 1000000)) ∧
    (format_record "DISPLAY".toList 1).drop 72 = zeroPad 8 (natToChars 1) :=
  c1_record_fields "DISPLAY".toList 1 (by decide) (by decide) (by decide) (by decide)

/-- C2 (confirmed): when the extracted body is longer than 65 characters,
columns 8-72 of the formatted Record are exactly the first 65 characters of
the body — the overflow is silently truncated, and formatting is total so
no error is ever surfaced. -/
theorem c2_body_truncated (line : List Char) (n : Nat)
    (h : 65 < (extract_parts line).2.length) :
    ((format_record line n).drop 7).take 65 = (extract_parts line).2.take 65 :=
  record_cols_of_gt line n h

theorem c2_body_truncated_witness :
    ((format_record (List.replicate 70 'B') 1).drop 7).take 65 =
      (extract_parts (List.replicate 70 'B')).2.take 65 :=
  c2_body_truncated (List.replicate 70 'B') 1 (by decide)

/-- C6, counterexample to the claim as stated: formatting the line `A` with
sequence number 1 and feeding the resulting 80-character Record back into
the formatter with the same sequence number does not reproduce the body
content of columns 8-72 — the Record starts with the digit sequence field,
so the pre-formatted detection (seven leading spaces) never fires on it and
the whole Record is treated as a fresh body. -/
theorem c6_idempotence_counterexample :
    ((format_record (format_record ['A'] 1) 1).drop 7).take 65 ≠
      ((format_record ['A'] 1).drop 7).take 65 := by
  decide

/-- C6 (amended): re-formatting an already-formatted Record (of a line
whose extracted body fits the 65 body columns) with the same sequence
number does not round-trip the body; instead, columns 8-72 of the
re-formatted Record are the first 65 characters of the original Record
(its sequence field, indicator, and first 58 body characters), because a
formatted Record begins with a digit and never passes the seven-leading-
spaces pre-formatted detection. -/
theorem c6_reformat_keeps_record_head (line : List Char) (n : Nat)
    (hbody : (extract_parts line).2.length ≤ 65) :
    ((format_record (format_record line n) n).drop 7).take 65 =
      (format_record line n).take 65 := by
  have hre := record_extract line n hbody
  have hlen : (format_record line n).length = 80 := format_record_length line n
  have hgt : 65 < (extract_parts (format_record line n)).2.length := by
    rw [hre]
    simp [hlen]
  have hcols := record_cols_of_gt (format_record line n) n hgt
  rw [hcols, hre]

theorem c6_reformat_keeps_record_head_witness :
    ((format_record (format_record ['A'] 1) 1).drop 7).take 65 =
      (format_record ['A'] 1).take 65 :=
  c6_reformat_keeps_record_head ['A'] 1 (by decide)

/-- C10 (confirmed): column 7 (index 6) of the formatted Record is always a
space — the pre-formatted branch extracts index 6 out of a prefix of seven
spaces, and the other branch hardcodes a space, so no non-space indicator
from the input survives into the Record. -/
theorem c10_indicator_always_space (line : List Char) (n : Nat) :
    ((format_record line n).drop 6).take 1 = [' '] := by
  have ha : (seq6str n).length = 6 := seq6str_length n
  by_cases h : (extract_parts line).2.length ≤ 65
  · rw [format_record_eq_of_le line n h]
    rw [List.drop_append_eq_append_drop, List.drop_append_eq_append_drop,
      List.drop_append_eq_append_drop]
    have h1 : (seq6str n).drop 6 = [] := List.drop_eq_nil_of_le (by omega)
    simp [h1, ha, List.length_append, extract_fst line, List.take_append_eq_append_take]
  · push_neg at h
    rw [format_record_eq_of_gt line n h]
    rw [List.drop_append_eq_append_drop, List.drop_append_eq_append_drop]
    have h1 : (seq6str n).drop 6 = [] := List.drop_eq_nil_of_le (by omega)
    simp [h1, ha, List.length_append, extract_fst line, List.take_append_eq_append_take]

/-! ## Encoding-table claims -/

/-- C3 (confirmed): the encoding table follows the character-class build
rule — each letter A-I maps to punches `{0, k+3}` (k the 0-based offset
from A), each letter J-R to `{1, k+3}`, each letter S-Z to `{2, k+4}`,
each digit d to the single punch `{d+2}`, and space to the empty set. -/
theorem c3_encoding_classes :
    (∀ i, i < 9 → get_hollerith_encoding (Char.ofNat ('A'.toNat + i)) = some [0, i + 3]) ∧
    (∀ i, i < 9 → get_hollerith_encoding (Char.ofNat ('J'.toNat + i)) = some [1, i + 3]) ∧
    (∀ i, i < 8 → get_hollerith_encoding (Char.ofNat ('S'.toNat + i)) = some [2, i + 4]) ∧
    (∀ d, d < 10 → get_hollerith_encoding (Char.ofNat ('0'.toNat + d)) = some [d + 2]) ∧
    get_hollerith_encoding ' ' = some [] := by
  decide

theorem c3_encoding_classes_witness :
    get_hollerith_encoding (Char.ofNat ('A'.toNat + 0)) = some [0, 0 + 3] ∧
    get_hollerith_encoding (Char.ofNat ('J'.toNat + 1)) = some [1, 1 + 3] ∧
    get_hollerith_encoding (Char.ofNat ('S'.toNat + 2)) = some [2, 2 + 4] ∧
    get_hollerith_encoding (Char.ofNat ('0'.toNat + 3)) = some [3 + 2] ∧
    get_hollerith_encoding ' ' = some [] :=
  ⟨c3_encoding_classes.1 0 (by decide), c3_encoding_classes.2.1 1 (by decide),
   c3_encoding_classes.2.2.1 2 (by decide), c3_encoding_classes.2.2.2.1 3 (by decide),
   c3_encoding_classes.2.2.2.2⟩

/-- C4 (confirmed): the special characters encode as claimed — asterisk to
`{1, 6}` and minus to `{1}` (distinguishable though both use row 1), while
plus and equals share `{0, 8}` and single quote and double quote share
`{0, 10}`. -/
theorem c4_special_encodings :
    get_hollerith_encoding '*' = some [1, 6] ∧
    get_hollerith_encoding '-' = some [1] ∧
    get_hollerith_encoding '+' = some [0, 8] ∧
    get_hollerith_encoding '=' = some [0, 8] ∧
    get_hollerith_encoding (Char.ofNat 39) = some [0, 10] ∧
    get_hollerith_encoding (Char.ofNat 34) = some [0, 10] := by
  decide

/-- C5 (confirmed): punch resolution is total (it is a function into punch
lists, with `getD []` absorbing any missed lookup), case-insensitive for
every letter (the character is uppercased before lookup), and every
character whose uppercased form has no table entry resolves to the empty
punch set. -/
theorem c5_lookup_total_case_insensitive :
    (∀ i, i < 26 → resolve_punch (Char.ofNat (97 + i)) = resolve_punch (Char.ofNat (65 + i))) ∧
    (∀ c : Char, get_hollerith_encoding c.toUpper = none → resolve_punch c = []) := by
  constructor
  · decide
  · intro c h
    unfold resolve_punch
    rw [h]
    rfl

theorem c5_lookup_total_case_insensitive_witness :
    resolve_punch (Char.ofNat (97 + 0)) = resolve_punch (Char.ofNat (65 + 0)) ∧
    resolve_punch '#' = [] :=
  ⟨c5_lookup_total_case_insensitive.1 0 (by decide),
   c5_lookup_total_case_insensitive.2 '#' (by decide)⟩

/-! ## Pagination claims -/

theorem chunks3_flatten {α : Type} : ∀ l : List α, (chunks3 l).flatten = l := by
  intro l
  induction l using chunks3.induct <;> simp [chunks3, *]

theorem chunks3_sizes {α : Type} :
    ∀ l : List α, ((chunks3 l).all fun p => decide (1 ≤ p.length) && decide (p.length ≤ 3)) = true := by
  intro l
  induction l using chunks3.induct <;> simp [chunks3, *]

theorem chunks3_dropLast_full {α : Type} :
    ∀ l : List α, ((chunks3 l).dropLast.all fun p => p.length == 3) = true := by
  intro l
  induction l using chunks3.induct with
  | case1 => simp [chunks3]
  | case2 a => simp [chunks3]
  | case3 a b => simp [chunks3]
  | case4 a b c rest ih =>
    rw [chunks3]
    cases h : chunks3 rest with
    | nil => simp
    | cons y ys =>
      rw [h] at ih
      simp only [List.dropLast_cons₂, List.all_cons, ih, Bool.and_true]
      simp

/-- C7 (confirmed): the document builder partitions the cards into pages of
exactly 3 in order (flattening the pages gives back the card list, every
non-final page has exactly 3 cards, every page has between 1 and 3), and 7
input records produce exactly the pages 3+3+1 with the 7th card alone on
the last page at slot 0. -/
theorem c7_pages_partition :
    (∀ lines : List (List Char),
      (pages_of lines).flatten = make_cards lines ∧
      ((pages_of lines).dropLast.all fun p => p.length == 3) = true ∧
      ((pages_of lines).all fun p => decide (1 ≤ p.length) && decide (p.length ≤ 3)) = true) ∧
    (∀ l₁ l₂ l₃ l₄ l₅ l₆ l₇ : List Char,
      pages_of [l₁, l₂, l₃, l₄, l₅, l₆, l₇] =
        [[from_cobol_line l₁ 1, from_cobol_line l₂ 2, from_cobol_line l₃ 3],
         [from_cobol_line l₄ 4, from_cobol_line l₅ 5, from_cobol_line l₆ 6],
         [from_cobol_line l₇ 7]]) := by
  constructor
  · intro lines
    exact ⟨chunks3_flatten _, chunks3_dropLast_full _, chunks3_sizes _⟩
  · intro l₁ l₂ l₃ l₄ l₅ l₆ l₇
    rfl

/-- C8 (confirmed): the punch rectangle emitted for a card at page slot `k`
and a punch at column `c`, row `r` has origin
`x = margin + (30 + 9*c)*scaleX`,
`y = cardBottomY + (imageHeight - (25 + 27*r))*scaleY - punchHeight`,
width `7*scaleX` and height `15*scaleY`, with
`scaleX = cardWidthPt/imageWidth`, `scaleY = cardHeightPt/imageHeight` and
`cardBottomY = pageHeight - spacing - (k+1)*cardHeightPt - k*spacing`. -/
theorem c8_punch_rect_formula (imgW imgH : ℚ) (k c r : Nat) :
    punch_rect imgW imgH k c r = punch_rect_spec imgW imgH k c r := by
  simp only [punch_rect, punch_rect_spec, y_pos, FIRST_PUNCH_X, FIRST_PUNCH_Y,
    COLUMN_SPACING, ROW_SPACING, PUNCH_WIDTH_PX, PUNCH_HEIGHT_PX, Prod.mk.injEq]
  and_intros <;> ring

/-! ## Validation claims -/

theorem validateAux_error :
    ∀ (lines : List (List Char)) (i : Nat),
      (∃ l, l ∈ lines ∧ 80 < (rustTrimEnd l).length) →
      ∃ j, j < lines.length ∧ 80 < (rustTrimEnd (lines.getD j [])).length ∧
        validateAux i lines = .error (lineErrorMsg (i + j + 1) (rustTrimEnd (lines.getD j []))) := by
  intro lines
  induction lines with
  | nil =>
    rintro i ⟨l, hl, -⟩
    simp at hl
  | cons line rest ih =>
    rintro i ⟨l, hl, hlen⟩
    by_cases h80 : 80 < (rustTrimEnd line).length
    · refine ⟨0, by simp, by simpa using h80, ?_⟩
      simp [validateAux, h80]
    · have hex : ∃ l, l ∈ rest ∧ 80 < (rustTrimEnd l).length := by
        rcases List.mem_cons.mp hl with rfl | hm
        · exact absurd hlen h80
        · exact ⟨l, hm, hlen⟩
      obtain ⟨j, hj, hjlen, heq⟩ := ih (i + 1) hex
      refine ⟨j + 1, by simpa using Nat.succ_lt_succ hj, by simpa using hjlen, ?_⟩
      simp only [validateAux, if_neg h80, heq, List.getD_cons_succ]
      have harith : i + 1 + j + 1 = i + (j + 1) + 1 := by omega
      rw [harith]

/-- C9 (confirmed): whenever some input line right-trims to more than 80
characters, validation fails with the error message of the first such line,
that message embeds the 1-based line number and ends with a preview of at
most 40 characters, and the whole pipeline short-circuits to that error —
no card is built and no page partition is produced. -/
theorem c9_validation_rejects_long (lines : List (List Char))
    (h : ∃ l, l ∈ lines ∧ 80 < (rustTrimEnd l).length) :
    ∃ j, j < lines.length ∧ 80 < (rustTrimEnd (lines.getD j [])).length ∧
      validate_and_format_cobol lines =
        .error (lineErrorMsg (j + 1) (rustTrimEnd (lines.getD j []))) ∧
      (∃ pre post, lineErrorMsg (j + 1) (rustTrimEnd (lines.getD j [])) =
        pre ++ natToChars (j + 1) ++ post) ∧
      (∃ head preview, preview.length ≤ 40 ∧
        lineErrorMsg (j + 1) (rustTrimEnd (lines.getD j [])) = head ++ preview) ∧
      run_pipeline lines = .error (lineErrorMsg (j + 1) (rustTrimEnd (lines.getD j []))) := by
  obtain ⟨j, hj, hlen, heq⟩ := validateAux_error lines 0 h
  have heq0 : validate_and_format_cobol lines =
      .error (lineErrorMsg (j + 1) (rustTrimEnd (lines.getD j []))) := by
    unfold validate_and_format_cobol
    simpa using heq
  refine ⟨j, hj, hlen, heq0, ?_, ?_, ?_⟩
  · exact ⟨"Line ".toList,
      " exceeds 80 columns (".toList ++ natToChars (rustTrimEnd (lines.getD j [])).length
        ++ " chars): ".toList
        ++ (rustTrimEnd (lines.getD j [])).take (min 40 (rustTrimEnd (lines.getD j [])).length),
      by simp [lineErrorMsg, List.append_assoc]⟩
  · refine ⟨"Line ".toList ++ natToChars (j + 1) ++ " exceeds 80 columns (".toList
        ++ natToChars (rustTrimEnd (lines.getD j [])).length ++ " chars): ".toList,
      (rustTrimEnd (lines.getD j [])).take (min 40 (rustTrimEnd (lines.getD j [])).length),
      ?_, ?_⟩
    · simp [List.length_take]
    · simp [lineErrorMsg, List.append_assoc]
  · unfold run_pipeline
    rw [heq0]

theorem c9_validation_rejects_long_witness :
    ∃ j, j < ([List.replicate 81 'A'] : List (List Char)).length ∧
      80 < (rustTrimEnd (([List.replicate 81 'A'] : List (List Char)).getD j [])).length ∧
      validate_and_format_cobol [List.replicate 81 'A'] =
        .error (lineErrorMsg (j + 1)
          (rustTrimEnd (([List.replicate 81 'A'] : List (List Char)).getD j []))) ∧
      (∃ pre post, lineErrorMsg (j + 1)
          (rustTrimEnd (([List.replicate 81 'A'] : List (List Char)).getD j [])) =
        pre ++ natToChars (j + 1) ++ post) ∧
      (∃ head preview, preview.length ≤ 40 ∧
        lineErrorMsg (j + 1)
          (rustTrimEnd (([List.replicate 81 'A'] : List (List Char)).getD j [])) =
          head ++ preview) ∧
      run_pipeline [List.replicate 81 'A'] =
        .error (lineErrorMsg (j + 1)
          (rustTrimEnd (([List.replicate 81 'A'] : List (List Char)).getD j []))) :=
  c9_validation_rejects_long [List.replicate 81 'A']
    ⟨List.replicate 81 'A', by simp, by decide⟩
